import Mathlib

/-!
Verification of the screed sequence-database library (screed/__init__.py and
screed/seqparse.py) against its natural-language specification.

Python text lines are modelled as `List Char`; a file handle opened for
reading is modelled as the list of its remaining lines, where `readline` on
an exhausted handle returns the empty string, exactly as in Python.
-/

/-- A Python string / text line. -/
abbrev Line := List Char

/-- The whitespace characters removed by Python's `str.strip()`. -/
def isSpc (c : Char) : Bool :=
  c == ' ' || c == '\t' || c == '\n' || c == '\r' || c == '\x0b' || c == '\x0c'

/-- Python `str.strip()`: remove leading and trailing whitespace. -/
def trimL (l : Line) : Line :=
  ((l.dropWhile isSpc).reverse.dropWhile isSpc).reverse

/-- Python `str.startswith(c)` for a single-character prefix. -/
def startsWithChar (c : Char) : Line → Bool
  | [] => false
  | d :: _ => d == c

/-- Python `str.split(' ', 1)`: split at the first space, `none` when the
string contains no space (the `ValueError` branch of the source). -/
def splitFirstSpace : Line → Option (Line × Line)
  | [] => none
  | c :: rest =>
    if c == ' ' then some ([], rest)
    else (splitFirstSpace rest).map (fun p => (c :: p.1, p.2))

/-- Model of `handle.readline().strip()`: the next stripped line and the rest of the
handle; on an exhausted handle Python's `readline` returns `''`. -/
def readline : List Line → Line × List Line
  | [] => ([], [])
  | l :: rest => (trimL l, rest)

/-! ## FASTA parser (`faiter` inside `read_fasta_sequences`) -/

/-- One record yielded by `faiter`. -/
structure FaRecord where
  name : Line
  description : Line
  sequence : Line
deriving DecidableEq

/-- Outcome of running the `faiter` generator to completion: either all
yielded records, or the records yielded before an `IOError` was raised. -/
inductive FaResult where
  | ok (records : List FaRecord)
  | err (yielded : List FaRecord) (msg : String)
deriving DecidableEq

/-- The sequence-collecting loop of `faiter`:
`line = handle.readline().strip()` followed by
`while line != '' and not line.startswith('>')`. Returns the collected
stripped lines, the loop-terminating line, and the rest of the handle. -/
def faSeqLoop : List Line → List Line → List Line × Line × List Line
  | [], acc => (acc, [], [])
  | l :: rest, acc =>
    let s := trimL l
    if s = [] || startsWithChar '>' s then (acc, s, rest)
    else faSeqLoop rest (acc ++ [s])

/-- Model of `line[1:].split(' ', 1)` with the `ValueError` fallback, then
`data['name'].strip()` and `data['description'].strip()`. -/
def faHeader (line : Line) : Line × Line :=
  match splitFirstSpace (line.drop 1) with
  | some (n, d) => (trimL n, trimL d)
  | none => (trimL (line.drop 1), [])

/-- The main loop of `faiter` (`while line != ''`), carrying the current
stripped line, the rest of the handle, and the records yielded so far. -/
def faMain (line : Line) (lines : List Line) (acc : List FaRecord) : FaResult :=
  if h0 : line = [] then .ok acc
  else if startsWithChar '>' line = false then
    .err acc "Bad FASTA format: no '>' at beginning of line"
  else
    faMain (faSeqLoop lines []).2.1 (faSeqLoop lines []).2.2
      (acc ++ [⟨(faHeader line).1, (faHeader line).2, (faSeqLoop lines []).1.flatten⟩])
termination_by lines.length + (if line = [] then 0 else 1)
decreasing_by
  have key : ∀ (L : List Line) (acc : List Line),
      ((faSeqLoop L acc).2.1 ≠ [] → (faSeqLoop L acc).2.2.length < L.length) ∧
      (faSeqLoop L acc).2.2.length ≤ L.length := by
    intro L
    induction L with
    | nil => intro acc; simp [faSeqLoop]
    | cons l rest ih =>
      intro acc
      simp only [faSeqLoop]
      by_cases h : (decide (trimL l = []) || startsWithChar '>' (trimL l)) = true
      · simp only [h, if_true, List.length_cons]
        exact ⟨fun _ => Nat.lt_succ_self _, Nat.le_succ _⟩
      · simp only [h, if_false, List.length_cons]
        exact ⟨fun hne => Nat.lt_succ_of_lt ((ih (acc ++ [trimL l])).1 hne),
          Nat.le_succ_of_le (ih (acc ++ [trimL l])).2⟩
  have h1 := (key lines []).1
  have h2 := (key lines []).2
  rw [if_neg h0]
  by_cases h3 : (faSeqLoop lines []).2.1 = []
  · rw [if_pos h3]; omega
  · have h4 := h1 h3
    rw [if_neg h3]; omega

/-- The `faiter` generator of `read_fasta_sequences`, run to completion on a
handle. -/
def faiter (lines : List Line) : FaResult :=
  let p := readline lines
  faMain p.1 p.2 []

/-! ### Canonical rendering of FASTA records, used to state round-trip
properties of the parser. -/

/-- The header line `>name` or `>name description` for a raw (possibly
untrimmed) name and description. -/
def faHeaderLine (rawName rawDesc : Line) : Line :=
  '>' :: rawName ++ (if rawDesc = [] then [] else ' ' :: rawDesc)

/-- A FASTA record rendered as its header line followed by its sequence
chunks. -/
def faRender (rawName rawDesc : Line) (chunks : List Line) : List Line :=
  faHeaderLine rawName rawDesc :: chunks

/-- Well-formedness of a rendered FASTA record: the raw name contains no
space, the header survives stripping unchanged, and every sequence chunk is
nonempty, stripped, and does not begin with `>`. -/
def FaWF (rawName rawDesc : Line) (chunks : List Line) : Prop :=
  ' ' ∉ rawName ∧
  trimL (faHeaderLine rawName rawDesc) = faHeaderLine rawName rawDesc ∧
  ∀ c ∈ chunks, trimL c = c ∧ c ≠ [] ∧ startsWithChar '>' c = false

instance (rawName rawDesc : Line) (chunks : List Line) :
    Decidable (FaWF rawName rawDesc chunks) := by
  unfold FaWF; infer_instance

/-- A stream position at which the sequence-collecting loop of `faiter`
stops: end of handle, or a next line that strips to empty or to a
`>`-header. -/
def FaStop (tail : List Line) : Prop :=
  tail = [] ∨ ∃ t ts, tail = t :: ts ∧
    (trimL t = [] ∨ startsWithChar '>' (trimL t) = true)

/-- The raw material of one rendered FASTA record: an (untrimmed) name, an
(untrimmed) description, and the physical lines of the sequence. -/
structure FaSrc where
  rawName : Line
  rawDesc : Line
  chunks : List Line
deriving DecidableEq

/-- The text lines a `FaSrc` contributes to the input stream. -/
def FaSrc.render (s : FaSrc) : List Line :=
  faRender s.rawName s.rawDesc s.chunks

/-- The record `faiter` is expected to yield for a `FaSrc`. -/
def FaSrc.toRecord (s : FaSrc) : FaRecord :=
  ⟨trimL s.rawName, trimL s.rawDesc, s.chunks.flatten⟩

/-- Well-formedness of a `FaSrc` (see `FaWF`). -/
def FaSrc.WF (s : FaSrc) : Prop :=
  FaWF s.rawName s.rawDesc s.chunks

instance (s : FaSrc) : Decidable s.WF := by
  unfold FaSrc.WF; infer_instance

/-! ## FASTQ parser (`fqiter` inside `read_fastq_sequences`) -/

/-- One record yielded by `fqiter`.  The `anns` field holds the
untrimmed annotations text of the header line. -/
structure FqRecord where
  name : Line
  anns : Line
  sequence : Line
  accuracy : Line
deriving DecidableEq

/-- Outcome of running the `fqiter` generator: all records, the records
yielded before an `IOError`, or the records yielded before the generator
stopped terminating. -/
inductive FqResult where
  | ok (records : List FqRecord)
  | err (yielded : List FqRecord) (msg : String)
  | hang (yielded : List FqRecord)
deriving DecidableEq

/-- The sequence-collecting loop of `fqiter`
(`while not line.startswith('+')`), translated faithfully: at end of
stream `readline` returns `''`, which never begins with `+`, so the body
appends `''` and repeats with the handle unchanged; `fuel` bounds how many
such end-of-stream reads are unrolled.  `none` means the bound was hit. -/
def fqSeqLoopF (lines : List Line) (acc : List Line) (fuel : Nat) :
    Option (List Line × List Line) :=
  match lines, fuel with
  | [], 0 => none
  | [], fuel + 1 => fqSeqLoopF [] (acc ++ [[]]) fuel
  | l :: rest, fuel =>
    if startsWithChar '+' (trimL l) then some (acc, rest)
    else fqSeqLoopF rest (acc ++ [trimL l]) fuel
termination_by (lines.length, fuel)

/-- The same loop with the bound removed: `none` now marks exactly the
inputs on which `fqSeqLoopF` fails for every fuel (see
`fqSeqLoopF_reads_forever_core`), i.e. on which the source loop never
terminates. -/
def fqSeqLoop : List Line → List Line → Option (List Line × List Line)
  | [], _ => none
  | l :: rest, acc =>
    if startsWithChar '+' (trimL l) then some (acc, rest)
    else fqSeqLoop rest (acc ++ [trimL l])

/-- The accuracy-collecting loop of `fqiter`
(`while not line.startswith('@') and not line == ''`). -/
def fqAccLoop : List Line → List Line → List Line × Line × List Line
  | [], acc => (acc, [], [])
  | l :: rest, acc =>
    let s := trimL l
    if startsWithChar '@' s || decide (s = []) then (acc, s, rest)
    else fqAccLoop rest (acc ++ [s])

/-- Model of `line[1:].split(' ', 1)` with the `ValueError` fallback; unlike the
FASTA variant, neither part is stripped afterwards. -/
def fqHeader (line : Line) : Line × Line :=
  match splitFirstSpace (line.drop 1) with
  | some (n, a) => (n, a)
  | none => (line.drop 1, [])

/-- Main loop of `fqiter` (`while line:`), carrying the current stripped
line, the rest of the handle and the records yielded so far.  The name
split is performed before the sequence loop in the source; since it cannot
fail, hoisting it into the record literal preserves behaviour. -/
def fqMain (line : Line) (lines : List Line) (acc : List FqRecord) : FqResult :=
  if h0 : line = [] then .ok acc
  else if startsWithChar '@' line = false then
    .err acc "Bad FASTQ format: no '@' at beginning of line"
  else
    match hsl : fqSeqLoop lines [] with
    | none => .hang acc
    | some (seqParts, rest1) =>
      if seqParts.flatten.length ≠ ((fqAccLoop rest1 []).1.flatten).length then
        .err acc "sequence and accuracy strings must be of equal length"
      else
        fqMain (fqAccLoop rest1 []).2.1 (fqAccLoop rest1 []).2.2
          (acc ++ [⟨(fqHeader line).1, (fqHeader line).2, seqParts.flatten,
            (fqAccLoop rest1 []).1.flatten⟩])
termination_by lines.length + (if line = [] then 0 else 1)
decreasing_by
  have keySeq : ∀ (L : List Line) (acc s : List Line) (r : List Line),
      fqSeqLoop L acc = some (s, r) → r.length < L.length := by
    intro L
    induction L with
    | nil => intro acc s r hq; exact absurd hq (by simp [fqSeqLoop])
    | cons l rest ih =>
      intro acc s r hq
      rw [fqSeqLoop] at hq
      by_cases hc : startsWithChar '+' (trimL l) = true
      · rw [if_pos hc] at hq
        cases hq
        simp
      · rw [if_neg hc] at hq
        exact Nat.lt_succ_of_lt (ih (acc ++ [trimL l]) s r hq)
  have keyAcc : ∀ (L : List Line) (acc : List Line),
      ((fqAccLoop L acc).2.1 ≠ [] → (fqAccLoop L acc).2.2.length < L.length) ∧
      (fqAccLoop L acc).2.2.length ≤ L.length := by
    intro L
    induction L with
    | nil => intro acc; simp [fqAccLoop]
    | cons l rest ih =>
      intro acc
      simp only [fqAccLoop]
      by_cases h : (startsWithChar '@' (trimL l) || decide (trimL l = [])) = true
      · simp only [h, if_true, List.length_cons]
        exact ⟨fun _ => Nat.lt_succ_self _, Nat.le_succ _⟩
      · simp only [h, if_false, List.length_cons]
        exact ⟨fun hne => Nat.lt_succ_of_lt ((ih (acc ++ [trimL l])).1 hne),
          Nat.le_succ_of_le (ih (acc ++ [trimL l])).2⟩
  have h1 : rest1.length < lines.length := keySeq lines [] seqParts rest1 hsl
  have h2 := (keyAcc rest1 []).1
  have h3 := (keyAcc rest1 []).2
  rw [if_neg h0]
  by_cases h4 : (fqAccLoop rest1 []).2.1 = []
  · rw [if_pos h4]; omega
  · have h5 := h2 h4
    rw [if_neg h4]; omega

/-- The `fqiter` generator of `read_fastq_sequences`, run to completion on
a handle. -/
def fqiter (lines : List Line) : FqResult :=
  fqMain (readline lines).1 (readline lines).2 []

/-! ### Canonical rendering of FASTQ records -/

/-- The raw material of one rendered FASTQ record: name, annotations, the
physical lines of the sequence block and of the accuracy block. -/
structure FqSrc where
  name : Line
  anns : Line
  seqChunks : List Line
  accChunks : List Line
deriving DecidableEq

/-- The header line `@name` or `@name annotations`. -/
def FqSrc.headerLine (s : FqSrc) : Line :=
  '@' :: s.name ++ (if s.anns = [] then [] else ' ' :: s.anns)

/-- The text lines an `FqSrc` contributes to the input stream: header,
sequence chunks, a bare `+` separator, accuracy chunks. -/
def FqSrc.render (s : FqSrc) : List Line :=
  s.headerLine :: s.seqChunks ++ ['+'] :: s.accChunks

/-- The record `fqiter` is expected to yield for an `FqSrc`. -/
def FqSrc.toRecord (s : FqSrc) : FqRecord :=
  ⟨s.name, s.anns, s.seqChunks.flatten, s.accChunks.flatten⟩

/-- Well-formedness of an `FqSrc`: name contains no space, the header
survives stripping unchanged, sequence chunks are stripped and do not begin
with `+`, accuracy chunks are stripped, nonempty, and do not begin with
`@`. -/
def FqSrc.WF (s : FqSrc) : Prop :=
  ' ' ∉ s.name ∧ trimL s.headerLine = s.headerLine ∧
  (∀ c ∈ s.seqChunks, trimL c = c ∧ startsWithChar '+' c = false) ∧
  (∀ c ∈ s.accChunks, trimL c = c ∧ c ≠ [] ∧ startsWithChar '@' c = false)

instance (s : FqSrc) : Decidable s.WF := by
  unfold FqSrc.WF; infer_instance

/-- The length agreement between sequence and accuracy demanded by the
parser. -/
def FqSrc.lenOK (s : FqSrc) : Prop :=
  s.seqChunks.flatten.length = s.accChunks.flatten.length

instance (s : FqSrc) : Decidable s.lenOK := by
  unfold FqSrc.lenOK; infer_instance

/-- A stream position at which the accuracy-collecting loop of `fqiter`
stops: end of handle, or a next line that strips to empty or to an
`@`-header. -/
def FqStop (tail : List Line) : Prop :=
  tail = [] ∨ ∃ t ts, tail = t :: ts ∧
    (trimL t = [] ∨ startsWithChar '@' (trimL t) = true)

/-! ## The on-disk store (`create_db`, `screedDB`)

The external sqlite engine is modelled by its contract: a dictionary table
whose rows are numbered by an INTEGER PRIMARY KEY assigned 1, 2, 3, … in
insertion order, an admin table holding the schema field names in order,
and point queries that scan the table in RowID order. -/

/-- A value stored in a record mapping: a text column value or the integer
primary-key value. -/
inductive Val where
  | vs (s : Line)
  | vn (n : Nat)
deriving DecidableEq

/-- A record as the Python dictionaries used throughout the source:
a finite mapping from field name to value. -/
abbrev Rec := List (String × Val)

/-- Python `record[key]`. -/
def recGet : Rec → String → Option Val
  | [], _ => none
  | (k2, v) :: rest, k => if k2 = k then some v else recGet rest k

/-- The text of a value (`record[key]` coerced to the TEXT column;
`str(...)` of the integer primary key). -/
def valStr : Val → Line
  | .vs l => l
  | .vn n => (Nat.repr n).toList

/-- The column text for a field of a record in `create_db`'s insert loop
(`record[key]`; every build supplies all schema fields). -/
def valLine (v : Option Val) : Line :=
  match v with
  | some w => valStr w
  | none => []

/-- The durable store: the persisted field schema (admin table) and the
dictionary-table rows in RowID order; the row at position `i` has RowID
`i + 1`. -/
structure Store where
  fields : List String
  rows : List (List Line)
deriving DecidableEq

/-- Model of `create_db(filepath, fields, rcrditer)`: creates the admin table from
`fields` and inserts one row per record, each row listing the record's
values in schema order; sqlite assigns RowIDs 1, 2, 3, … in insertion
order. -/
def create_db (fields : List String) (recs : List Rec) : Store :=
  ⟨fields, recs.map (fun r => fields.map (fun f => valLine (recGet r f)))⟩

/-- The RowIDs present in the dictionary table. -/
def rowids (s : Store) : List Nat :=
  List.range' 1 s.rows.length

/-- SQL `MAX` over a column: `NULL` (`none`) on an empty table. -/
def sqlMax (l : List Nat) : Option Nat :=
  l.foldl (fun a x => some (max (a.getD 0) x)) none

/-- Model of `screedDB.__init__`: `SELECT MAX(id) FROM dictionary_table` — the
record count the open store reports (`__len__` returns it unchanged). -/
def screedLen (s : Store) : Option Nat :=
  sqlMax (rowids s)

/-- The dictionary-table rows paired with their RowIDs, in table order. -/
def enumRows (s : Store) : List (Nat × List Line) :=
  (rowids s).zip s.rows

/-- Model of `SELECT ... WHERE queryBy = ?`: the first row whose first column — the
column of the first schema field, on which `create_db` builds the unique
index — equals the key. -/
def findByKey (s : Store) (key : Line) : Option (Nat × List Line) :=
  (enumRows s).find? (fun p => p.2.headD [] == key)

/-- Model of `SELECT ... WHERE id = ?`: the first row with the given RowID. -/
def findByRowid (s : Store) (i : Nat) : Option (Nat × List Line) :=
  (enumRows s).find? (fun p => p.1 == i)

/-- Modelled from the spec: `screedRecord._buildRecord` (module
`screedRecord` is not under src/) assembles the returned record from the
matched row; per the spec, records carry each schema field and expose the
RowID as the 0-based index field `id` (spec: "RowID: ... 1-based
internally, exposed to callers as 0-based"). -/
def assembleRecord (s : Store) (p : Nat × List Line) : Rec :=
  ("id", .vn (p.1 - 1)) :: s.fields.zip (p.2.map Val.vs)

/-- The failure kinds an opened store signals: `KeyError` for lookups that
find nothing, `AttributeError` for the unsupported mutating methods. -/
inductive DbErr where
  | keyErr (msg : String)
  | attrErr
deriving DecidableEq

/-- Model of `screedDB.__getitem__`: key lookup; `KeyError` when the query returns
no row. -/
def screed_getitem (s : Store) (key : Line) : Except DbErr Rec :=
  match findByKey s key with
  | none => .error (.keyErr "Key not found")
  | some p => .ok (assembleRecord s p)

/-- Model of `screedDB.loadRecordByIndex`: 0-based positional lookup, translated to
RowID `index + 1`; `KeyError` when the query returns no row. -/
def loadRecordByIndex (s : Store) (idx : Nat) : Except DbErr Rec :=
  match findByRowid s (idx + 1) with
  | none => .error (.keyErr "Index not found")
  | some p => .ok (assembleRecord s p)

/-- The record built for RowID `i` (used by `itervalues`, which queries by
primary key for each index 1 … len). -/
def buildAt (s : Store) (i : Nat) : Rec :=
  match findByRowid s i with
  | some p => assembleRecord s p
  | none => []

/-- Model of `screedDB.itervalues`: `xrange(1, len+1)` over `_buildRecord` by
primary key; when the store is empty `__len__` is `NULL` and the `xrange`
call fails (`none`). -/
def itervalues (s : Store) : Option (List Rec) :=
  (screedLen s).map (fun n => (List.range' 1 n).map (buildAt s))

/-- Model of `screedDB.iterkeys`: `SELECT queryBy FROM dictionary_table` — the first
column of every row, in table (RowID) order. -/
def iterkeys (s : Store) : List Line :=
  s.rows.map (fun row => row.headD [])

/-- Model of `screedDB.iteritems`: `(str(v[PRIMARY_KEY]), v)` for each value —
the stringified id field, not the lookup key. -/
def iteritems (s : Store) : Option (List (Line × Rec)) :=
  (itervalues s).map (List.map (fun v => (valStr ((recGet v "id").getD (.vs [])), v)))

/-- Model of `screedDB.keys` (`list(self.iterkeys())`). -/
def screed_keys (s : Store) : List Line :=
  iterkeys s

/-- Model of `screedDB.values` (`list(self.itervalues())`). -/
def screed_values (s : Store) : Option (List Rec) :=
  itervalues s

/-- Model of `screedDB.items` (`list(self.iteritems())`). -/
def screed_items (s : Store) : Option (List (Line × Rec)) :=
  iteritems s

/-- Model of `screedDB.__setitem__`: `raise AttributeError`, store untouched. -/
def screed_setitem (s : Store) (x : Val) : Except DbErr Unit × Store :=
  (.error .attrErr, s)

/-- Model of `screedDB.clear`: `raise AttributeError`, store untouched. -/
def screed_clear (s : Store) : Except DbErr Unit × Store :=
  (.error .attrErr, s)

/-- Model of `screedDB.update`: `raise AttributeError`, store untouched. -/
def screed_update (s : Store) (r : Rec) : Except DbErr Unit × Store :=
  (.error .attrErr, s)

/-- Model of `screedDB.setdefault`: `raise AttributeError`, store untouched. -/
def screed_setdefault (s : Store) (x : Val) : Except DbErr Unit × Store :=
  (.error .attrErr, s)

/-- Model of `screedDB.pop`: `raise AttributeError`, store untouched. -/
def screed_pop (s : Store) : Except DbErr Unit × Store :=
  (.error .attrErr, s)

/-- Model of `screedDB.popitem`: `raise AttributeError`, store untouched. -/
def screed_popitem (s : Store) : Except DbErr Unit × Store :=
  (.error .attrErr, s)

/-- The record-dictionary shape of a parsed FASTA record, as `create_db`
receives it from `faiter`. -/
def faRecToRec (r : FaRecord) : Rec :=
  [("name", .vs r.name), ("description", .vs r.description),
   ("sequence", .vs r.sequence)]

/-- The record-dictionary shape of a parsed FASTQ record, as `create_db`
receives it from `fqiter`. -/
def fqRecToRec (r : FqRecord) : Rec :=
  [("name", .vs r.name), ("annotations", .vs r.anns),
   ("sequence", .vs r.sequence), ("accuracy", .vs r.accuracy)]

instance {ε α : Type} [DecidableEq ε] [DecidableEq α] :
    DecidableEq (Except ε α) := fun a b =>
  match a, b with
  | .ok x, .ok y =>
    if h : x = y then isTrue (by rw [h])
    else isFalse (by intro hh; injection hh; contradiction)
  | .error x, .error y =>
    if h : x = y then isTrue (by rw [h])
    else isFalse (by intro hh; injection hh; contradiction)
  | .ok _, .error _ => isFalse (by intro hh; cases hh)
  | .error _, .ok _ => isFalse (by intro hh; cases hh)

/-- The store built from the single FASTA record `>A` / `ACGT`, used by the
C6 witness and counterexample. -/
def storeA : Store :=
  create_db ["name", "description", "sequence"]
    [faRecToRec ⟨['A'], [], ['A', 'C', 'G', 'T']⟩]

/-! ## Serializer (`linewrap`, `getComments`, `generateAccuracy`,
`toFastq`) -/

/-- Model of `_MAXLINELEN = 80`. -/
def MAXLINELEN : Nat := 80

/-- Model of `_null_accuracy = '"'` (ASCII 34). -/
def nullAccuracy : Char := '\"'

/-- The slices `longString[begin:begin+_MAXLINELEN]` collected by the
`linewrap` loop. -/
def linewrapChunks (l : Line) : List Line :=
  if h : l = [] then []
  else l.take MAXLINELEN :: linewrapChunks (l.drop MAXLINELEN)
termination_by l.length
decreasing_by
  have hl : l.length ≠ 0 := by simpa [List.length_eq_zero] using h
  rw [List.length_drop]
  simp [MAXLINELEN]
  omega

/-- Model of `linewrap`: the slices joined with newlines. -/
def linewrap (l : Line) : Line :=
  List.intercalate ['\n'] (linewrapChunks l)

/-- Model of `getComments`: the `description` field if present, else `annotations`,
else the empty string. -/
def getComments (v : Rec) : Line :=
  match recGet v "description" with
  | some d => valStr d
  | none =>
    match recGet v "annotations" with
    | some a => valStr a
    | none => []

/-- Model of `generateAccuracy`: the wrapped accuracy if present, else the null
accuracy character repeated to the sequence's length, wrapped. -/
def generateAccuracy (v : Rec) : Line :=
  match recGet v "accuracy" with
  | some a => linewrap (valStr a)
  | none => linewrap (List.replicate (valLine (recGet v "sequence")).length nullAccuracy)

/-- One record as `toFastq` writes it:
`'@%s %s\n%s\n+\n%s\n' % (name, getComments(v), linewrap(sequence),
generateAccuracy(v))`. -/
def fqFormatRecord (v : Rec) : Line :=
  ['@'] ++ valLine (recGet v "name") ++ [' '] ++ getComments v ++ ['\n'] ++
  linewrap (valLine (recGet v "sequence")) ++ ['\n', '+', '\n'] ++
  generateAccuracy v ++ ['\n']

/-- Model of `toFastq`: the concatenation of the formatted records over
`db.itervalues()`, i.e. in RowID order. -/
def toFastq (s : Store) : Option Line :=
  (itervalues s).map (fun vals => (vals.map fqFormatRecord).flatten)

/-! ## Build effects of `create_db` on the filesystem -/

/-- A record iterator's outcome as `create_db`'s insert loop consumes it:
all records, or the records inserted before the iterator raised. -/
inductive IterOut where
  | ok (recs : List Rec)
  | err (recs : List Rec) (msg : String)
deriving DecidableEq

/-- The filesystem state at the target path after a `create_db` call. -/
structure BuildFx where
  oldRemoved : Bool
  artifactPresent : Bool
  committed : Bool
  raised : Option String
deriving DecidableEq

/-- The filesystem effects of `create_db`, following the source's order of
operations: (1) `os.path.exists` / `os.unlink` removes any pre-existing
artifact before a single record is read; (2) `sqlite3.connect(filepath)`
creates the new file at the target path; (3) the insert loop pulls from the
iterator, and if the iterator raises the exception propagates — no cleanup
code runs, the newly created file stays on disk, and the single
`con.commit()` placed after the loop is never reached. -/
def create_db_fx (preExisting : Bool) (fields : List String) (iter : IterOut) :
    BuildFx × Option Store :=
  match iter with
  | .ok recs =>
    ({ oldRemoved := preExisting, artifactPresent := true,
       committed := true, raised := none }, some (create_db fields recs))
  | .err _ msg =>
    ({ oldRemoved := preExisting, artifactPresent := true,
       committed := false, raised := some msg }, none)

/-- Model of `fqiter`'s outcome as the record iterator `create_db` consumes; `none`
when the generator never terminates (the build then has no post-state at
all). -/
def fqIterOut : FqResult → Option IterOut
  | .ok recs => some (.ok (recs.map fqRecToRec))
  | .err recs msg => some (.err (recs.map fqRecToRec) msg)
  | .hang _ => none

/-- Model of `read_fastq_sequences(filename)`: parse the handle with `fqiter` and
build the store with `create_db` over the FASTQ field schema, starting from
a path that may or may not already hold a store artifact. -/
def read_fastq_fx (preExisting : Bool) (lines : List Line) :
    Option (BuildFx × Option Store) :=
  (fqIterOut (fqiter lines)).map
    (create_db_fx preExisting ["name", "annotations", "sequence", "accuracy"])

/-! ## The generic fixed-schema parser (`havaiter` in seqparse.py) -/

/-- One record yielded by `havaiter`. -/
structure HavaRecord where
  hava : Line
  quarzk : Line
  muchalo : Line
  fakours : Line
  selimizicka : Line
  marshoon : Line
deriving DecidableEq

/-- Main loop of `havaiter` (`while line:`): the current line is the
`hava` field, five further `readline().strip()` calls fill the remaining
fields, and a sixth read fetches the next record's first line. -/
def havaMain (line : Line) (lines : List Line) (acc : List HavaRecord) :
    List HavaRecord :=
  if h0 : line = [] then acc
  else
    havaMain
      (readline (readline (readline (readline (readline (readline lines).2).2).2).2).2).1
      (readline (readline (readline (readline (readline (readline lines).2).2).2).2).2).2
      (acc ++ [⟨line,
        (readline lines).1,
        (readline (readline lines).2).1,
        (readline (readline (readline lines).2).2).1,
        (readline (readline (readline (readline lines).2).2).2).1,
        (readline (readline (readline (readline (readline lines).2).2).2).2).1⟩])
termination_by lines.length + (if line = [] then 0 else 1)
decreasing_by
  have key : ∀ (L : List Line), (readline L).2.length ≤ L.length ∧
      (L ≠ [] → (readline L).2.length < L.length) := by
    intro L
    cases L with
    | nil => simp [readline]
    | cons l rest => simp [readline]
  rw [if_neg h0]
  by_cases hl : lines = []
  · subst hl
    simp [readline]
  · have c1 := (key lines).2 hl
    have c2 := (key (readline lines).2).1
    have c3 := (key (readline (readline lines).2).2).1
    have c4 := (key (readline (readline (readline lines).2).2).2).1
    have c5 := (key (readline (readline (readline (readline lines).2).2).2).2).1
    have c6 := (key
      (readline (readline (readline (readline (readline lines).2).2).2).2).2).1
    by_cases h6 :
        (readline (readline (readline (readline (readline (readline lines).2).2).2).2).2).1 = []
    · rw [if_pos h6]; omega
    · rw [if_neg h6]; omega

/-- The `havaiter` generator of `read_hava_sequences`, run to completion. -/
def read_hava (lines : List Line) : List HavaRecord :=
  havaMain (readline lines).1 (readline lines).2 []

/-- The record-dictionary shape of a parsed hava record. -/
def havaRecToRec (r : HavaRecord) : Rec :=
  [("hava", .vs r.hava), ("quarzk", .vs r.quarzk), ("muchalo", .vs r.muchalo),
   ("fakours", .vs r.fakours), ("selimizicka", .vs r.selimizicka),
   ("marshoon", .vs r.marshoon)]

/-! ## The shared mutable record dictionary (C10)

Each generator creates one dictionary `data = {}` before its loop and
assigns every field of every record into that same dictionary, yielding the
same object each time.  The dictionary's successive states are modelled by
folding the per-iteration assignments over the pure parsers' records. -/

/-- Python dict assignment `d[k] = v`: overwrite in place, else append. -/
def recSet : Rec → String → Val → Rec
  | [], k, v => [(k, v)]
  | (k2, v2) :: rest, k, v =>
    if k2 = k then (k, v) :: rest else (k2, v2) :: recSet rest k v

/-- The assignments one `fqiter` iteration performs on the shared dict, in
source order: `name`, `annotations`, `sequence`, `accuracy`. -/
def updFq (d : Rec) (r : FqRecord) : Rec :=
  recSet (recSet (recSet (recSet d "name" (.vs r.name))
    "annotations" (.vs r.anns)) "sequence" (.vs r.sequence))
    "accuracy" (.vs r.accuracy)

/-- The assignments one `faiter` iteration performs on the shared dict, in
source order: `name`, `description` (both re-assigned by the strips, same
keys), `sequence`. -/
def updFa (d : Rec) (r : FaRecord) : Rec :=
  recSet (recSet (recSet d "name" (.vs r.name))
    "description" (.vs r.description)) "sequence" (.vs r.sequence)

/-- The assignments one `havaiter` iteration performs on the shared dict,
in source order. -/
def updHava (d : Rec) (r : HavaRecord) : Rec :=
  recSet (recSet (recSet (recSet (recSet (recSet d "hava" (.vs r.hava))
    "quarzk" (.vs r.quarzk)) "muchalo" (.vs r.muchalo))
    "fakours" (.vs r.fakours)) "selimizicka" (.vs r.selimizicka))
    "marshoon" (.vs r.marshoon)

/-- The dictionary's state at each yield of `fqiter`, threading the single
shared dict through the iterations. -/
def fqDictRun : Rec → List FqRecord → List Rec
  | _, [] => []
  | d, r :: rest => updFq d r :: fqDictRun (updFq d r) rest

/-- The dictionary's state at each yield of `faiter`. -/
def faDictRun : Rec → List FaRecord → List Rec
  | _, [] => []
  | d, r :: rest => updFa d r :: faDictRun (updFa d r) rest

/-- The dictionary's state at each yield of `havaiter`. -/
def havaDictRun : Rec → List HavaRecord → List Rec
  | _, [] => []
  | d, r :: rest => updHava d r :: havaDictRun (updHava d r) rest

/-- Model of `list(fqiter(f))`: the generator yields the same dict object every
time, so the materialized list holds `n` references to it, each observed —
once the iterator is exhausted — as the dict's final state. -/
def fqListMaterialized (lines : List Line) : Option (List Rec) :=
  match fqiter lines with
  | .ok recs => some (List.replicate recs.length ((fqDictRun [] recs).getLast?.getD []))
  | _ => none

/-- Model of `list(faiter(f))` under the same aliasing semantics. -/
def faListMaterialized (lines : List Line) : Option (List Rec) :=
  match faiter lines with
  | .ok recs => some (List.replicate recs.length ((faDictRun [] recs).getLast?.getD []))
  | _ => none

/-- Model of `list(havaiter(f))` under the same aliasing semantics. -/
def havaListMaterialized (lines : List Line) : List Rec :=
  List.replicate (read_hava lines).length
    ((havaDictRun [] (read_hava lines)).getLast?.getD [])

theorem faSeqLoop_nil (acc : List Line) : faSeqLoop [] acc = (acc, [], []) := rfl

theorem splitFirstSpace_of_not_mem {l : Line} (h : ' ' ∉ l) :
    splitFirstSpace l = none := by
  induction l with
  | nil => rfl
  | cons c rest ih =>
    have hne : c ≠ ' ' := fun e => h (by simp [e])
    have hr : ' ' ∉ rest := fun hm => h (List.mem_cons_of_mem c hm)
    simp [splitFirstSpace, beq_iff_eq, hne, ih hr]

theorem splitFirstSpace_append {n a : Line} (h : ' ' ∉ n) :
    splitFirstSpace (n ++ ' ' :: a) = some (n, a) := by
  induction n with
  | nil => simp [splitFirstSpace]
  | cons c rest ih =>
    have hne : c ≠ ' ' := fun e => h (by simp [e])
    have hr : ' ' ∉ rest := fun hm => h (List.mem_cons_of_mem c hm)
    simp [splitFirstSpace, beq_iff_eq, hne, ih hr, List.cons_append]

theorem readline_cons (l : Line) (rest : List Line) :
    readline (l :: rest) = (trimL l, rest) := rfl

/-- Parsing the rendered header recovers the (stripped) name and
description. -/
theorem faHeader_render {rawName rawDesc : Line} (h : ' ' ∉ rawName) :
    faHeader (faHeaderLine rawName rawDesc) = (trimL rawName, trimL rawDesc) := by
  by_cases hd : rawDesc = []
  · subst hd
    have e1 : (faHeaderLine rawName []).drop 1 = rawName := by
      simp [faHeaderLine]
    simp only [faHeader, e1, splitFirstSpace_of_not_mem h]
    rfl
  · have e1 : (faHeaderLine rawName rawDesc).drop 1 = rawName ++ ' ' :: rawDesc := by
      simp [faHeaderLine, hd]
    simp only [faHeader, e1, splitFirstSpace_append h]

theorem faSeqLoop_chunks :
    ∀ (chunks : List Line) (tail : List Line) (acc : List Line),
      (∀ c ∈ chunks, trimL c = c ∧ c ≠ [] ∧ startsWithChar '>' c = false) →
      FaStop tail →
      faSeqLoop (chunks ++ tail) acc =
        (acc ++ chunks, (readline tail).1, (readline tail).2) := by
  intro chunks
  induction chunks with
  | nil =>
    intro tail acc _ ht
    rcases ht with h | ⟨t, ts, rfl, h⟩
    · subst h; simp [faSeqLoop, readline]
    · rcases h with h | h <;>
        simp [faSeqLoop, readline, h]
  | cons c cs ih =>
    intro tail acc hc ht
    have h1 := hc c (List.mem_cons_self c cs)
    simp only [List.cons_append, faSeqLoop, h1.1]
    have hcond : (decide (c = []) || startsWithChar '>' c) = false := by
      simp [h1.2.1, h1.2.2]
    rw [hcond]
    simp only [if_false, Bool.false_eq_true, List.append_eq]
    rw [ih tail (acc ++ [c]) (fun d hd => hc d (List.mem_cons_of_mem c hd)) ht]
    simp

theorem FaSrc.render_ne_nil (s : FaSrc) : s.render ≠ [] := by
  simp [FaSrc.render, faRender]

theorem faStop_flatMap :
    ∀ (srcs : List FaSrc) (tail : List Line),
      (∀ s ∈ srcs, s.WF) → FaStop tail →
      FaStop (srcs.flatMap FaSrc.render ++ tail) := by
  intro srcs tail hw ht
  cases srcs with
  | nil => simpa using ht
  | cons s rest =>
    right
    refine ⟨faHeaderLine s.rawName s.rawDesc,
      s.chunks ++ (rest.flatMap FaSrc.render ++ tail), ?_, ?_⟩
    · simp [List.flatMap_cons, FaSrc.render, faRender]
    · right
      rw [(hw s (List.mem_cons_self s rest)).2.1]
      rfl

theorem faMain_chain :
    ∀ (srcs : List FaSrc) (tail : List Line) (acc : List FaRecord),
      (∀ s ∈ srcs, s.WF) → FaStop tail →
      faMain (readline (srcs.flatMap FaSrc.render ++ tail)).1
             (readline (srcs.flatMap FaSrc.render ++ tail)).2 acc =
      faMain (readline tail).1 (readline tail).2 (acc ++ srcs.map FaSrc.toRecord) := by
  intro srcs
  induction srcs with
  | nil => intro tail acc _ _; simp
  | cons s rest ih =>
    intro tail acc hw ht
    have hsw := hw s (List.mem_cons_self s rest)
    have hrw : ∀ x ∈ rest, x.WF := fun x hx => hw x (List.mem_cons_of_mem s hx)
    have hdr := hsw.2.1
    simp only [List.flatMap_cons, FaSrc.render, faRender, List.cons_append,
      List.append_assoc]
    rw [readline_cons, hdr]
    rw [faMain]
    have hne : faHeaderLine s.rawName s.rawDesc ≠ [] := by
      simp [faHeaderLine]
    have hstart : startsWithChar '>' (faHeaderLine s.rawName s.rawDesc) = true := rfl
    rw [dif_neg hne, if_neg (by rw [hstart]; decide)]
    rw [faSeqLoop_chunks s.chunks (rest.flatMap FaSrc.render ++ tail) []
      hsw.2.2 (faStop_flatMap rest tail hrw ht)]
    simp only [List.nil_append]
    rw [faHeader_render hsw.1]
    have hrec : ({ name := (trimL s.rawName, trimL s.rawDesc).1,
                   description := (trimL s.rawName, trimL s.rawDesc).2,
                   sequence := s.chunks.flatten } : FaRecord) = s.toRecord := rfl
    rw [hrec]
    rw [ih tail (acc ++ [s.toRecord]) hrw ht]
    simp

theorem faiter_ok_render (srcs : List FaSrc) (hw : ∀ s ∈ srcs, s.WF) :
    faiter (srcs.flatMap FaSrc.render) = .ok (srcs.map FaSrc.toRecord) := by
  have h := faMain_chain srcs [] [] hw (Or.inl rfl)
  rw [List.append_nil] at h
  unfold faiter
  rw [h]
  simp [readline, faMain]

theorem faiter_badstart (l : Line) (ls : List Line) (h1 : trimL l ≠ [])
    (h2 : startsWithChar '>' (trimL l) = false) :
    faiter (l :: ls) = .err [] "Bad FASTA format: no '>' at beginning of line" := by
  unfold faiter
  simp only [readline]
  rw [faMain]
  rw [dif_neg h1, if_pos h2]

theorem faiter_blank_stop (srcs : List FaSrc) (t : Line) (ts : List Line)
    (hw : ∀ s ∈ srcs, s.WF) (ht : trimL t = []) :
    faiter (srcs.flatMap FaSrc.render ++ t :: ts) = .ok (srcs.map FaSrc.toRecord) := by
  have h := faMain_chain srcs (t :: ts) [] hw (Or.inr ⟨t, ts, rfl, Or.inl ht⟩)
  unfold faiter
  rw [h, readline_cons, ht]
  rw [faMain]
  simp

/-- C3 amended: on a well-formed FASTA stream the parser yields one record
per `>`-header with trimmed name and description and the concatenated
sequence; a nonblank first line not beginning with `>` is a format
violation; and a line that strips to empty also ends the current record's
sequence and the entire parse (the rest of the stream is discarded) — not
only a `>`-line or end-of-stream. -/
theorem faiter_spec :
    (∀ (srcs : List FaSrc), (∀ s ∈ srcs, s.WF) →
        faiter (srcs.flatMap FaSrc.render) = .ok (srcs.map FaSrc.toRecord)) ∧
    (∀ (l : Line) (ls : List Line), trimL l ≠ [] →
        startsWithChar '>' (trimL l) = false →
        faiter (l :: ls) = .err [] "Bad FASTA format: no '>' at beginning of line") ∧
    (∀ (srcs : List FaSrc) (t : Line) (ts : List Line), (∀ s ∈ srcs, s.WF) →
        trimL t = [] →
        faiter (srcs.flatMap FaSrc.render ++ t :: ts) =
          .ok (srcs.map FaSrc.toRecord)) :=
  ⟨faiter_ok_render, faiter_badstart, faiter_blank_stop⟩

/-- C3 counterexample: in `>A` / `AC` / (blank) / `GT` the blank line ends
the record and the whole parse — the parser yields sequence `AC` and
discards `GT`, where the claim's grammar (sequence read up to the next
`>`-line or end-of-stream) demands `ACGT`. -/
theorem faiter_blank_line_counterexample :
    faiter [['>', 'A'], ['A', 'C'], [], ['G', 'T']] =
      FaResult.ok [⟨['A'], [], ['A', 'C']⟩] ∧
    faiter [['>', 'A'], ['A', 'C'], [], ['G', 'T']] ≠
      FaResult.ok [⟨['A'], [], ['A', 'C', 'G', 'T']⟩] := by
  have h1 : faiter [['>', 'A'], ['A', 'C'], [], ['G', 'T']] =
      FaResult.ok [⟨['A'], [], ['A', 'C']⟩] :=
    faiter_blank_stop [⟨['A'], [], [['A', 'C']]⟩] [] [['G', 'T']] (by decide) rfl
  refine ⟨h1, fun h => ?_⟩
  rw [h1] at h
  simp at h

/-- Witness for C3 at a concrete input: name `"\tA"` (trimmed to `"A"`),
description `"x y"`, sequence split over two lines. -/
theorem faiter_spec_witness :
    faiter (([⟨['\t', 'A'], ['x', ' ', 'y'], [['A', 'C'], ['G']]⟩] :
        List FaSrc).flatMap FaSrc.render) =
      FaResult.ok [⟨['A'], ['x', ' ', 'y'], ['A', 'C', 'G']⟩] ∧
    faiter [['a', 'b'], ['>', 'x']] =
      FaResult.err [] "Bad FASTA format: no '>' at beginning of line" := by
  constructor
  · exact faiter_spec.1 [⟨['\t', 'A'], ['x', ' ', 'y'], [['A', 'C'], ['G']]⟩]
      (by decide)
  · exact faiter_spec.2.1 ['a', 'b'] [['>', 'x']] (by decide) (by decide)

theorem fqSeqLoopF_nil : ∀ (fuel : Nat) (acc : List Line),
    fqSeqLoopF [] acc fuel = none := by
  intro fuel
  induction fuel with
  | zero => intro acc; simp [fqSeqLoopF]
  | succ n ih => intro acc; rw [fqSeqLoopF]; exact ih (acc ++ [[]])

theorem fqSeqLoopF_eq_fqSeqLoop : ∀ (lines : List Line) (acc : List Line) (fuel : Nat),
    fqSeqLoopF lines acc fuel = fqSeqLoop lines acc := by
  intro lines
  induction lines with
  | nil => intro acc fuel; rw [fqSeqLoopF_nil]; rfl
  | cons l rest ih =>
    intro acc fuel
    rw [fqSeqLoopF, fqSeqLoop]
    by_cases h : startsWithChar '+' (trimL l) = true
    · rw [if_pos h, if_pos h]
    · rw [if_neg h, if_neg h, ih]

theorem fqHeader_render (s : FqSrc) (h : ' ' ∉ s.name) :
    fqHeader s.headerLine = (s.name, s.anns) := by
  by_cases hd : s.anns = []
  · have e1 : s.headerLine.drop 1 = s.name := by
      simp [FqSrc.headerLine, hd]
    simp only [fqHeader, e1, splitFirstSpace_of_not_mem h, hd]
  · have e1 : s.headerLine.drop 1 = s.name ++ ' ' :: s.anns := by
      simp [FqSrc.headerLine, hd]
    simp only [fqHeader, e1, splitFirstSpace_append h]

theorem fqSeqLoop_chunks :
    ∀ (chunks : List Line) (tail : List Line) (acc : List Line),
      (∀ c ∈ chunks, trimL c = c ∧ startsWithChar '+' c = false) →
      fqSeqLoop (chunks ++ ['+'] :: tail) acc = some (acc ++ chunks, tail) := by
  intro chunks
  induction chunks with
  | nil =>
    intro tail acc _
    have h : startsWithChar '+' (trimL ['+']) = true := by decide
    simp [fqSeqLoop, h]
  | cons c cs ih =>
    intro tail acc hc
    have h1 := hc c (List.mem_cons_self c cs)
    simp only [List.cons_append, fqSeqLoop, h1.1, h1.2, if_false, Bool.false_eq_true,
      List.append_eq]
    rw [ih tail (acc ++ [c]) (fun d hd => hc d (List.mem_cons_of_mem c hd))]
    simp

theorem fqAccLoop_chunks :
    ∀ (chunks : List Line) (tail : List Line) (acc : List Line),
      (∀ c ∈ chunks, trimL c = c ∧ c ≠ [] ∧ startsWithChar '@' c = false) →
      FqStop tail →
      fqAccLoop (chunks ++ tail) acc =
        (acc ++ chunks, (readline tail).1, (readline tail).2) := by
  intro chunks
  induction chunks with
  | nil =>
    intro tail acc _ ht
    rcases ht with h | ⟨t, ts, rfl, h⟩
    · subst h; simp [fqAccLoop, readline]
    · rcases h with h | h <;> simp [fqAccLoop, readline, h]
  | cons c cs ih =>
    intro tail acc hc ht
    have h1 := hc c (List.mem_cons_self c cs)
    simp only [List.cons_append, fqAccLoop, h1.1]
    have hcond : (startsWithChar '@' c || decide (c = [])) = false := by
      simp [h1.2.1, h1.2.2]
    rw [hcond]
    simp only [if_false, Bool.false_eq_true, List.append_eq]
    rw [ih tail (acc ++ [c]) (fun d hd => hc d (List.mem_cons_of_mem c hd)) ht]
    simp

/-- Unfolding lemma for `fqMain` when the sequence loop succeeds. -/
theorem fqMain_step_some {line : Line} {lines : List Line}
    {seqParts rest1 : List Line} {acc : List FqRecord}
    (h0 : line ≠ []) (h1 : startsWithChar '@' line = true)
    (h2 : fqSeqLoop lines [] = some (seqParts, rest1)) :
    fqMain line lines acc =
      if seqParts.flatten.length ≠ ((fqAccLoop rest1 []).1.flatten).length then
        .err acc "sequence and accuracy strings must be of equal length"
      else
        fqMain (fqAccLoop rest1 []).2.1 (fqAccLoop rest1 []).2.2
          (acc ++ [⟨(fqHeader line).1, (fqHeader line).2, seqParts.flatten,
            (fqAccLoop rest1 []).1.flatten⟩]) := by
  rw [fqMain, dif_neg h0, if_neg (by rw [h1]; decide)]
  split
  next heq => rw [h2] at heq; cases heq
  next sp r1 heq =>
    rw [h2] at heq
    have h3 := heq
    simp only [Option.some.injEq, Prod.mk.injEq] at h3
    obtain ⟨e1, e2⟩ := h3
    subst e1; subst e2
    rfl

/-- Unfolding lemma for `fqMain` when the sequence loop reaches end of
stream without a `+` line (the non-terminating case of the source). -/
theorem fqMain_step_none {line : Line} {lines : List Line} {acc : List FqRecord}
    (h0 : line ≠ []) (h1 : startsWithChar '@' line = true)
    (h2 : fqSeqLoop lines [] = none) :
    fqMain line lines acc = .hang acc := by
  rw [fqMain, dif_neg h0, if_neg (by rw [h1]; decide)]
  split
  next heq => rfl
  next sp r1 heq => rw [h2] at heq; cases heq

theorem fqStop_flatMap :
    ∀ (srcs : List FqSrc) (tail : List Line),
      (∀ s ∈ srcs, s.WF) → FqStop tail →
      FqStop (srcs.flatMap FqSrc.render ++ tail) := by
  intro srcs tail hw ht
  cases srcs with
  | nil => simpa using ht
  | cons s rest =>
    right
    refine ⟨s.headerLine, s.seqChunks ++ ['+'] :: s.accChunks ++
      (rest.flatMap FqSrc.render ++ tail), ?_, ?_⟩
    · simp [List.flatMap_cons, FqSrc.render]
    · right
      rw [(hw s (List.mem_cons_self s rest)).2.1]
      rfl

theorem fqMain_chain :
    ∀ (srcs : List FqSrc) (tail : List Line) (acc : List FqRecord),
      (∀ s ∈ srcs, s.WF ∧ s.lenOK) → FqStop tail →
      fqMain (readline (srcs.flatMap FqSrc.render ++ tail)).1
             (readline (srcs.flatMap FqSrc.render ++ tail)).2 acc =
      fqMain (readline tail).1 (readline tail).2 (acc ++ srcs.map FqSrc.toRecord) := by
  intro srcs
  induction srcs with
  | nil => intro tail acc _ _; simp
  | cons s rest ih =>
    intro tail acc hw ht
    have hsw := (hw s (List.mem_cons_self s rest)).1
    have hsl := (hw s (List.mem_cons_self s rest)).2
    have hrw : ∀ x ∈ rest, x.WF ∧ x.lenOK := fun x hx => hw x (List.mem_cons_of_mem s hx)
    simp only [List.flatMap_cons, FqSrc.render, List.cons_append, List.append_assoc]
    rw [readline_cons, hsw.2.1]
    have hne : s.headerLine ≠ [] := by
      simp [FqSrc.headerLine]
    have hstart : startsWithChar '@' s.headerLine = true := rfl
    have h2 := fqSeqLoop_chunks s.seqChunks
      (s.accChunks ++ (rest.flatMap FqSrc.render ++ tail)) [] hsw.2.2.1
    simp only [List.nil_append] at h2
    rw [fqMain_step_some hne hstart h2]
    have hstop : FqStop (rest.flatMap FqSrc.render ++ tail) :=
      fqStop_flatMap rest tail (fun x hx => (hrw x hx).1) ht
    have h3 := fqAccLoop_chunks s.accChunks (rest.flatMap FqSrc.render ++ tail) []
      hsw.2.2.2 hstop
    simp only [List.nil_append] at h3
    rw [h3]
    dsimp only
    have hsl2 : s.seqChunks.flatten.length = s.accChunks.flatten.length := hsl
    rw [if_neg (not_not_intro hsl2)]
    rw [fqHeader_render s hsw.1]
    have hrec : ({ name := (s.name, s.anns).1, anns := (s.name, s.anns).2,
                   sequence := s.seqChunks.flatten,
                   accuracy := s.accChunks.flatten } : FqRecord) = s.toRecord := rfl
    rw [hrec]
    rw [ih tail (acc ++ [s.toRecord]) hrw ht]
    simp

theorem fqiter_ok_render (srcs : List FqSrc)
    (h : ∀ s ∈ srcs, s.WF ∧ s.lenOK) :
    fqiter (srcs.flatMap FqSrc.render) = .ok (srcs.map FqSrc.toRecord) := by
  have hc := fqMain_chain srcs [] [] h (Or.inl rfl)
  rw [List.append_nil] at hc
  unfold fqiter
  rw [hc]
  rw [fqMain]
  simp [readline]

theorem fqiter_err_render (srcs : List FqSrc) (bad : FqSrc)
    (h : ∀ s ∈ srcs, s.WF ∧ s.lenOK) (hb : bad.WF) (hbl : ¬ bad.lenOK) :
    fqiter (srcs.flatMap FqSrc.render ++ bad.render) =
      .err (srcs.map FqSrc.toRecord)
        "sequence and accuracy strings must be of equal length" := by
  have hstop : FqStop bad.render := by
    right
    refine ⟨bad.headerLine, bad.seqChunks ++ ['+'] :: bad.accChunks, ?_, ?_⟩
    · simp [FqSrc.render]
    · right
      rw [hb.2.1]
      rfl
  have hc := fqMain_chain srcs bad.render [] h hstop
  unfold fqiter
  rw [hc]
  have hrl : readline bad.render =
      (trimL bad.headerLine, bad.seqChunks ++ ['+'] :: bad.accChunks) := by
    simp [FqSrc.render, readline_cons]
  rw [hrl, hb.2.1]
  have hne : bad.headerLine ≠ [] := by
    simp [FqSrc.headerLine]
  have hstart : startsWithChar '@' bad.headerLine = true := rfl
  have h2 := fqSeqLoop_chunks bad.seqChunks bad.accChunks [] hb.2.2.1
  simp only [List.nil_append] at h2
  rw [fqMain_step_some hne hstart h2]
  have h3 := fqAccLoop_chunks bad.accChunks [] [] hb.2.2.2 (Or.inl rfl)
  simp only [List.nil_append, List.append_nil] at h3
  rw [h3]
  dsimp only
  have hbl2 : bad.seqChunks.flatten.length ≠ bad.accChunks.flatten.length := hbl
  rw [if_pos hbl2]
  simp

theorem fqiter_blank_stop (srcs : List FqSrc) (t : Line) (ts : List Line)
    (hw : ∀ s ∈ srcs, s.WF ∧ s.lenOK) (ht : trimL t = []) :
    fqiter (srcs.flatMap FqSrc.render ++ t :: ts) = .ok (srcs.map FqSrc.toRecord) := by
  have h := fqMain_chain srcs (t :: ts) [] hw (Or.inr ⟨t, ts, rfl, Or.inl ht⟩)
  unfold fqiter
  rw [h, readline_cons, ht]
  rw [fqMain]
  simp

/-- C2 amended: on a well-formed FASTQ stream the parser yields one record
per `@`-header (name and untrimmed annotations split at the first space,
sequence concatenated up to the consumed `+` line, accuracy concatenated up
to the next `@`-header, a line that strips to empty, or end of stream — a
blank line also ends the entire parse), and as soon as an assembled record
has differing sequence and accuracy lengths the parse fails with only the
earlier records yielded. -/
theorem fqiter_spec :
    (∀ (srcs : List FqSrc), (∀ s ∈ srcs, s.WF ∧ s.lenOK) →
        fqiter (srcs.flatMap FqSrc.render) = .ok (srcs.map FqSrc.toRecord)) ∧
    (∀ (srcs : List FqSrc) (bad : FqSrc), (∀ s ∈ srcs, s.WF ∧ s.lenOK) →
        bad.WF → ¬ bad.lenOK →
        fqiter (srcs.flatMap FqSrc.render ++ bad.render) =
          .err (srcs.map FqSrc.toRecord)
            "sequence and accuracy strings must be of equal length") ∧
    (∀ (srcs : List FqSrc) (t : Line) (ts : List Line),
        (∀ s ∈ srcs, s.WF ∧ s.lenOK) → trimL t = [] →
        fqiter (srcs.flatMap FqSrc.render ++ t :: ts) =
          .ok (srcs.map FqSrc.toRecord)) :=
  ⟨fqiter_ok_render, fqiter_err_render, fqiter_blank_stop⟩

/-- C2 counterexample: in `@r` / `AC` / `+` / `I` / (blank) / `I` the blank
line ends the accuracy block — the claim's grammar (accuracy read until an
`@`-line or end-of-stream) demands accuracy `II` and a yielded record, but
the parser stops at the blank line with accuracy `I` and raises the length
mismatch instead, yielding nothing. -/
theorem fqiter_blank_line_counterexample :
    fqiter [['@', 'r'], ['A', 'C'], ['+'], ['I'], [], ['I']] =
      FqResult.err [] "sequence and accuracy strings must be of equal length" ∧
    fqiter [['@', 'r'], ['A', 'C'], ['+'], ['I'], [], ['I']] ≠
      FqResult.ok [⟨['r'], [], ['A', 'C'], ['I', 'I']⟩] := by
  have h1 : fqiter [['@', 'r'], ['A', 'C'], ['+'], ['I'], [], ['I']] =
      FqResult.err [] "sequence and accuracy strings must be of equal length" := by
    unfold fqiter
    rw [readline_cons]
    have ht : trimL ['@', 'r'] = ['@', 'r'] := by decide
    rw [ht]
    rw [fqMain_step_some (by decide) (by decide)
      (by decide : fqSeqLoop [['A', 'C'], ['+'], ['I'], [], ['I']] [] =
        some ([['A', 'C']], [['I'], [], ['I']]))]
    rw [if_pos (by decide)]
  refine ⟨h1, fun h => ?_⟩
  rw [h1] at h
  simp at h

/-- Witness for C2 at concrete inputs: a record with annotations and a
two-line sequence parses back exactly; a record whose sequence has length 5
against an accuracy of length 4 makes the parse fail with nothing
yielded. -/
theorem fqiter_spec_witness :
    fqiter (([⟨['r', '1'], ['a', ' ', 'b'], [['A', 'C'], ['G', 'T']],
        [['I', 'I', 'I', 'I']]⟩] : List FqSrc).flatMap FqSrc.render) =
      FqResult.ok [⟨['r', '1'], ['a', ' ', 'b'], ['A', 'C', 'G', 'T'],
        ['I', 'I', 'I', 'I']⟩] ∧
    fqiter (([] : List FqSrc).flatMap FqSrc.render ++
        (⟨['r', '2'], [], [['A', 'C', 'G', 'T', 'A']],
          [['I', 'I', 'I', 'I']]⟩ : FqSrc).render) =
      FqResult.err [] "sequence and accuracy strings must be of equal length" := by
  constructor
  · exact fqiter_spec.1
      [⟨['r', '1'], ['a', ' ', 'b'], [['A', 'C'], ['G', 'T']], [['I', 'I', 'I', 'I']]⟩]
      (by decide)
  · exact fqiter_spec.2.1 []
      ⟨['r', '2'], [], [['A', 'C', 'G', 'T', 'A']], [['I', 'I', 'I', 'I']]⟩
      (by decide) (by decide) (by decide)

/-- C9 counterexample: on the truncated stream `@r` / `AC` — which ends
inside the sequence block before any `+` line — the FASTQ iterator does not
terminate (the `hang` outcome; see `fq_seq_loop_reads_forever` for the
fuel-indexed justification), so it neither yields records nor raises. -/
theorem fqiter_truncated_hangs :
    fqiter [['@', 'r'], ['A', 'C']] = FqResult.hang [] := by
  have h2 : fqSeqLoop [['A', 'C']] [] = none := by decide
  unfold fqiter
  rw [readline_cons]
  have ht : trimL ['@', 'r'] = ['@', 'r'] := by decide
  rw [ht]
  exact fqMain_step_none (by decide) (by decide) h2

/-- C9 amended: the sequence loop of `fqiter`, translated faithfully with a
fuel bound on end-of-stream reads (`fqSeqLoopF`), returns no result at end
of stream no matter how much fuel it is given — the loop reads forever on a
stream truncated inside a sequence block — and agrees with the unbounded
model `fqSeqLoop` everywhere, so `FqResult.hang` marks exactly the
non-terminating runs while all other streams terminate with `ok` or
`err`. -/
theorem fq_seq_loop_reads_forever :
    ∀ (fuel : Nat) (acc : List Line) (lines : List Line),
      fqSeqLoopF [] acc fuel = none ∧
      fqSeqLoopF lines acc fuel = fqSeqLoop lines acc :=
  fun fuel acc lines =>
    ⟨fqSeqLoopF_nil fuel acc, fqSeqLoopF_eq_fqSeqLoop lines acc fuel⟩

theorem range'_concat_own :
    ∀ (s n : Nat), List.range' s (n + 1) = List.range' s n ++ [s + n] := by
  intro s n
  induction n generalizing s with
  | zero => simp [List.range']
  | succ k ih =>
    rw [List.range'_succ, ih (s + 1), List.range'_succ]
    simp [List.cons_append]
    omega

theorem sqlMax_range' (m : Nat) :
    sqlMax (List.range' 1 m) = if m = 0 then none else some m := by
  induction m with
  | zero => rfl
  | succ n ih =>
    have e : sqlMax (List.range' 1 (n + 1)) =
        some (max ((sqlMax (List.range' 1 n)).getD 0) (1 + n)) := by
      rw [range'_concat_own]
      simp [sqlMax, List.foldl_append]
    rw [e, ih]
    by_cases h : n = 0
    · subst h; simp
    · rw [if_neg h, if_neg (Nat.succ_ne_zero n)]
      simp only [Option.getD_some]
      have : max n (1 + n) = n + 1 := by omega
      rw [this]

theorem zipRange_mem :
    ∀ {α : Type} (rows : List α) (start : Nat) (p : Nat × α),
      p ∈ (List.range' start rows.length).zip rows →
      start ≤ p.1 ∧ p.1 < start + rows.length ∧ rows[p.1 - start]? = some p.2 := by
  intro α rows
  induction rows with
  | nil => intro start p h; simp at h
  | cons a l ih =>
    intro start p h
    rw [List.length_cons, List.range'_succ, List.zip_cons_cons] at h
    rcases List.mem_cons.mp h with h1 | h1
    · subst h1
      refine ⟨Nat.le_refl _, by simp, ?_⟩
      simp
    · obtain ⟨g1, g2, g3⟩ := ih (start + 1) p h1
      refine ⟨by omega, by simp; omega, ?_⟩
      have hk : p.1 - start = (p.1 - (start + 1)) + 1 := by omega
      rw [hk, List.getElem?_cons_succ]
      exact g3

theorem find_rowid_zip :
    ∀ {α : Type} (rows : List α) (start i : Nat), start ≤ i → i < start + rows.length →
      ∃ a, ((List.range' start rows.length).zip rows).find? (fun p => p.1 == i) =
          some (i, a) ∧ rows[i - start]? = some a := by
  intro α rows
  induction rows with
  | nil => intro start i h1 h2; simp at h2; omega
  | cons a l ih =>
    intro start i h1 h2
    rw [List.length_cons, List.range'_succ, List.zip_cons_cons]
    by_cases he : start = i
    · subst he
      refine ⟨a, ?_, by simp⟩
      rw [List.find?_cons_of_pos _ (by simp)]
    · obtain ⟨b, g1, g2⟩ := ih (start + 1) i (by omega) (by simp at h2 ⊢; omega)
      refine ⟨b, ?_, ?_⟩
      · rw [List.find?_cons_of_neg _ (by simp [he]), g1]
      · have hk : i - start = (i - (start + 1)) + 1 := by omega
        rw [hk, List.getElem?_cons_succ]
        exact g2

theorem findByRowid_eq (s : Store) (i : Nat) (h1 : 1 ≤ i) (h2 : i ≤ s.rows.length) :
    ∃ row, findByRowid s i = some (i, row) ∧ s.rows[i - 1]? = some row := by
  obtain ⟨row, g1, g2⟩ := find_rowid_zip s.rows 1 i h1 (by omega)
  exact ⟨row, g1, g2⟩

theorem findByKey_mem {s : Store} {key : Line} {p : Nat × List Line}
    (h : findByKey s key = some p) :
    1 ≤ p.1 ∧ p.1 ≤ s.rows.length ∧ s.rows[p.1 - 1]? = some p.2 := by
  have hm : p ∈ enumRows s := List.mem_of_find?_eq_some h
  obtain ⟨g1, g2, g3⟩ := zipRange_mem s.rows 1 p hm
  exact ⟨g1, by omega, g3⟩

theorem recGet_id_assemble (s : Store) (p : Nat × List Line) :
    recGet (assembleRecord s p) "id" = some (.vn (p.1 - 1)) := by
  simp [assembleRecord, recGet]

/-- C5: key lookup and positional lookup agree — looking up the 0-based
index carried by a key-retrieved record (RowID minus one) returns that same
record — and a missing key and an out-of-range index fail with the same
`KeyError` kind. -/
theorem screed_lookup_agree :
    (∀ (s : Store) (key : Line) (r : Rec) (i : Nat),
        screed_getitem s key = .ok r → recGet r "id" = some (.vn i) →
        loadRecordByIndex s i = .ok r) ∧
    (∀ (s : Store) (key : Line), findByKey s key = none →
        screed_getitem s key = .error (.keyErr "Key not found")) ∧
    (∀ (s : Store) (idx : Nat), findByRowid s (idx + 1) = none →
        loadRecordByIndex s idx = .error (.keyErr "Index not found")) := by
  refine ⟨?_, ?_, ?_⟩
  · intro s key r i hg hid
    cases hf : findByKey s key with
    | none =>
      unfold screed_getitem at hg
      rw [hf] at hg
      simp at hg
    | some p =>
      unfold screed_getitem at hg
      rw [hf] at hg
      simp only [Except.ok.injEq] at hg
      subst hg
      obtain ⟨b1, b2, b3⟩ := findByKey_mem hf
      rw [recGet_id_assemble] at hid
      simp only [Option.some.injEq, Val.vn.injEq] at hid
      have hi : i + 1 = p.1 := by omega
      unfold loadRecordByIndex
      rw [hi]
      obtain ⟨row, hfr, hrow⟩ := findByRowid_eq s p.1 b1 b2
      rw [hfr]
      have hre : row = p.2 := by
        have := hrow.symm.trans b3
        exact Option.some_inj.mp this
      subst hre
      rfl
  · intro s key hf
    unfold screed_getitem
    rw [hf]
  · intro s idx hf
    unfold loadRecordByIndex
    rw [hf]

/-- Witness for C5 at a concrete two-field store: the record keyed `"A"`
has id 0 and positional lookup at 0 returns it; a missing key fails with
`KeyError`. -/
theorem screed_lookup_agree_witness :
    loadRecordByIndex (create_db ["name", "sequence"]
        [[("name", Val.vs ['A']), ("sequence", Val.vs ['C', 'G'])]]) 0 =
      .ok [("id", Val.vn 0), ("name", Val.vs ['A']), ("sequence", Val.vs ['C', 'G'])] ∧
    screed_getitem (create_db ["name", "sequence"]
        [[("name", Val.vs ['A']), ("sequence", Val.vs ['C', 'G'])]]) ['Z'] =
      .error (.keyErr "Key not found") :=
  ⟨screed_lookup_agree.1
      (create_db ["name", "sequence"]
        [[("name", Val.vs ['A']), ("sequence", Val.vs ['C', 'G'])]])
      ['A']
      [("id", Val.vn 0), ("name", Val.vs ['A']), ("sequence", Val.vs ['C', 'G'])]
      0 (by decide) (by decide),
   screed_lookup_agree.2.1
      (create_db ["name", "sequence"]
        [[("name", Val.vs ['A']), ("sequence", Val.vs ['C', 'G'])]])
      ['Z'] (by decide)⟩

/-- C4 amended: the length a freshly opened store reports is `MAX(RowID)`:
for a build from `n ≥ 1` parsed records it equals `n`, but for a build from
zero records the `MAX` query returns NULL (`none`) — the store does not
report length 0. -/
theorem store_length_spec :
    (∀ (fields : List String) (recs : List Rec),
        screedLen (create_db fields recs) =
          if recs.length = 0 then none else some recs.length) ∧
    (∀ (lines : List Line) (recs : List FaRecord),
        faiter lines = FaResult.ok recs → recs ≠ [] →
        screedLen (create_db ["name", "description", "sequence"]
          (recs.map faRecToRec)) = some recs.length) := by
  have base : ∀ (fields : List String) (recs : List Rec),
      screedLen (create_db fields recs) =
        if recs.length = 0 then none else some recs.length := by
    intro fields recs
    unfold screedLen rowids create_db
    simp only [List.length_map]
    exact sqlMax_range' recs.length
  refine ⟨base, ?_⟩
  intro lines recs _ hne
  rw [base]
  rw [List.length_map]
  rw [if_neg (by simpa [List.length_eq_zero] using hne)]

/-- Witness for C4 at a concrete one-record FASTA input. -/
theorem store_length_spec_witness :
    screedLen (create_db ["name", "description", "sequence"]
      (([⟨['A'], [], ['A', 'C']⟩] : List FaRecord).map faRecToRec)) = some 1 :=
  store_length_spec.2 [['>', 'A'], ['A', 'C']] [⟨['A'], [], ['A', 'C']⟩]
    (faiter_ok_render [⟨['A'], [], [['A', 'C']]⟩] (by decide)) (by decide)

/-- C4 counterexample: a valid FASTA input with zero records builds a store
whose reported length is NULL (`none`), not 0. -/
theorem store_empty_length_counterexample :
    faiter [] = FaResult.ok [] ∧
    screedLen (create_db ["name", "description", "sequence"] []) = none ∧
    (none : Option Nat) ≠ some 0 := by
  refine ⟨?_, rfl, by decide⟩
  unfold faiter
  rw [faMain]
  simp [readline]

theorem buildAt_id (s : Store) (i : Nat) (h1 : 1 ≤ i) (h2 : i ≤ s.rows.length) :
    recGet (buildAt s i) "id" = some (.vn (i - 1)) := by
  obtain ⟨row, hf, _⟩ := findByRowid_eq s i h1 h2
  unfold buildAt
  rw [hf]
  exact recGet_id_assemble s (i, row)

/-- C6 amended: on a nonempty store, `itervalues` produces the records
built for RowIDs 1 … n in order (n = row count), `iteritems` pairs each
with the string of its 0-based id field — the RowID rendered as text, not
the lookup key — and `iterkeys` produces the first-field values in row
order. -/
theorem screed_iteration_spec :
    ∀ (s : Store), s.rows ≠ [] →
      itervalues s = some ((List.range' 1 s.rows.length).map (buildAt s)) ∧
      (itervalues s).map List.length = some s.rows.length ∧
      iteritems s = some ((List.range' 1 s.rows.length).map
        (fun i => ((Nat.repr (i - 1)).toList, buildAt s i))) ∧
      iterkeys s = s.rows.map (fun row => row.headD []) := by
  intro s hne
  have hlen : screedLen s = some s.rows.length := by
    unfold screedLen rowids
    rw [sqlMax_range']
    rw [if_neg (by simpa [List.length_eq_zero] using hne)]
  have hv : itervalues s = some ((List.range' 1 s.rows.length).map (buildAt s)) := by
    unfold itervalues
    rw [hlen]
    rfl
  refine ⟨hv, ?_, ?_, rfl⟩
  · rw [hv]
    simp
  · unfold iteritems
    rw [hv]
    simp only [Option.map_some']
    congr 1
    rw [List.map_map]
    apply List.map_congr_left
    intro i hi
    have hb := List.mem_range'_1.mp hi
    simp only [Function.comp]
    rw [buildAt_id s i hb.1 (by omega)]
    rfl

/-- Witness for C6 at `storeA`. -/
theorem screed_iteration_spec_witness :
    itervalues storeA = some ((List.range' 1 storeA.rows.length).map (buildAt storeA)) ∧
    (itervalues storeA).map List.length = some storeA.rows.length ∧
    iteritems storeA = some ((List.range' 1 storeA.rows.length).map
      (fun i => ((Nat.repr (i - 1)).toList, buildAt storeA i))) ∧
    iterkeys storeA = storeA.rows.map (fun row => row.headD []) :=
  screed_iteration_spec storeA (by decide)

/-- C6 counterexample: on `storeA` the pairs of `iteritems` carry `"0"` —
the stringified row id — as first component, while `keys()` holds `"A"`;
looking up `"0"` as a key fails with `KeyError`. -/
theorem screed_items_keys_counterexample :
    (iteritems storeA).map (List.map Prod.fst) = some [['0']] ∧
    iterkeys storeA = [['A']] ∧
    (some [['0']] : Option (List Line)) ≠ some [['A']] ∧
    screed_getitem storeA ['0'] = .error (.keyErr "Key not found") := by
  refine ⟨by decide, by decide, by decide, by decide⟩

/-- C7: every mutating operation of an opened store — `__setitem__`,
`clear`, `update`, `setdefault`, `pop`, `popitem` — unconditionally raises
`AttributeError`, leaves the store unchanged, and that failure kind is
distinct from the `KeyError` raised by lookups. -/
theorem screed_mutators_spec :
    ∀ (s : Store) (x : Val) (r : Rec) (m : String),
      screed_setitem s x = (.error .attrErr, s) ∧
      screed_clear s = (.error .attrErr, s) ∧
      screed_update s r = (.error .attrErr, s) ∧
      screed_setdefault s x = (.error .attrErr, s) ∧
      screed_pop s = (.error .attrErr, s) ∧
      screed_popitem s = (.error .attrErr, s) ∧
      DbErr.attrErr ≠ DbErr.keyErr m :=
  fun s x r m =>
    ⟨rfl, rfl, rfl, rfl, rfl, rfl, fun h => DbErr.noConfusion h⟩

theorem linewrapChunks_nil : linewrapChunks [] = [] := by
  rw [linewrapChunks]
  simp

theorem linewrapChunks_eq_nil_iff (l : Line) : linewrapChunks l = [] ↔ l = [] := by
  constructor
  · intro h
    by_contra hne
    rw [linewrapChunks, dif_neg hne] at h
    cases h
  · intro h
    subst h
    exact linewrapChunks_nil

theorem linewrapChunks_flatten : ∀ (l : Line), (linewrapChunks l).flatten = l := by
  intro l
  induction l using linewrapChunks.induct with
  | case1 => simp [linewrapChunks_nil]
  | case2 l h ih =>
    rw [linewrapChunks, dif_neg h]
    simp only [List.flatten_cons, ih]
    exact List.take_append_drop MAXLINELEN l

theorem linewrapChunks_dropLast_len :
    ∀ (l : Line), ∀ c ∈ (linewrapChunks l).dropLast, c.length = MAXLINELEN := by
  intro l
  induction l using linewrapChunks.induct with
  | case1 => simp [linewrapChunks_nil]
  | case2 l h ih =>
    rw [linewrapChunks, dif_neg h]
    by_cases hc : linewrapChunks (l.drop MAXLINELEN) = []
    · rw [hc]
      simp
    · rw [List.dropLast_cons_of_ne_nil hc]
      intro c hm
      rcases List.mem_cons.mp hm with h1 | h1
      · subst h1
        have hd : l.drop MAXLINELEN ≠ [] := by
          intro he
          exact hc (by rw [he]; exact linewrapChunks_nil)
        have hlen : MAXLINELEN < l.length := by
          by_contra hle
          exact hd (List.drop_eq_nil_of_le (by omega))
        rw [List.length_take]
        exact inf_eq_left.mpr (le_of_lt hlen)
      · exact ih c h1

theorem linewrapChunks_chunk_len :
    ∀ (l : Line), ∀ c ∈ linewrapChunks l, 1 ≤ c.length ∧ c.length ≤ MAXLINELEN := by
  intro l
  induction l using linewrapChunks.induct with
  | case1 => simp [linewrapChunks_nil]
  | case2 l h ih =>
    rw [linewrapChunks, dif_neg h]
    intro c hm
    rcases List.mem_cons.mp hm with h1 | h1
    · subst h1
      constructor
      · have ht : List.take MAXLINELEN l ≠ [] := by
          simp only [ne_eq, List.take_eq_nil_iff]
          push_neg
          exact ⟨by simp [MAXLINELEN], h⟩
        have := List.length_pos.mpr ht
        omega
      · exact List.length_take_le _ _
    · exact ih c h1

/-- C8: `toFastq` emits, over `itervalues` (RowID order), exactly
`@{name} {comment}\n{wrapped sequence}\n+\n{wrapped quality}\n` per record;
wrapping cuts a field into lines of at most 80 characters, all exactly 80
except possibly the last, whose concatenation restores the field; the
comment is `description` if present, else `annotations`, else empty; a
record without an `accuracy` field gets the sentinel `"` repeated to the
sequence's length, then wrapped. -/
theorem toFastq_spec :
    (∀ (l : Line), (linewrapChunks l).flatten = l ∧
        linewrap l = List.intercalate ['\n'] (linewrapChunks l) ∧
        (∀ c ∈ (linewrapChunks l).dropLast, c.length = MAXLINELEN) ∧
        (∀ c ∈ linewrapChunks l, 1 ≤ c.length ∧ c.length ≤ MAXLINELEN)) ∧
    (∀ (v : Rec) (d : Line), recGet v "description" = some (.vs d) →
        getComments v = d) ∧
    (∀ (v : Rec) (a : Line), recGet v "description" = none →
        recGet v "annotations" = some (.vs a) → getComments v = a) ∧
    (∀ (v : Rec), recGet v "description" = none →
        recGet v "annotations" = none → getComments v = []) ∧
    (∀ (v : Rec) (sq : Line), recGet v "accuracy" = none →
        recGet v "sequence" = some (.vs sq) →
        generateAccuracy v = linewrap (List.replicate sq.length nullAccuracy) ∧
        (List.replicate sq.length nullAccuracy).length = sq.length) ∧
    (∀ (v : Rec) (a : Line), recGet v "accuracy" = some (.vs a) →
        generateAccuracy v = linewrap a) ∧
    (∀ (s : Store) (vals : List Rec), itervalues s = some vals →
        toFastq s = some ((vals.map (fun v =>
          ['@'] ++ valLine (recGet v "name") ++ [' '] ++ getComments v ++ ['\n'] ++
          linewrap (valLine (recGet v "sequence")) ++ ['\n', '+', '\n'] ++
          generateAccuracy v ++ ['\n'])).flatten)) := by
  refine ⟨?_, ?_, ?_, ?_, ?_, ?_, ?_⟩
  · intro l
    exact ⟨linewrapChunks_flatten l, rfl, linewrapChunks_dropLast_len l,
      linewrapChunks_chunk_len l⟩
  · intro v d h
    unfold getComments
    rw [h]
    rfl
  · intro v a h1 h2
    unfold getComments
    rw [h1, h2]
    rfl
  · intro v h1 h2
    unfold getComments
    rw [h1, h2]
  · intro v sq h1 h2
    constructor
    · unfold generateAccuracy
      rw [h1, h2]
      rfl
    · exact List.length_replicate _ _
  · intro v a h1
    unfold generateAccuracy
    rw [h1]
    rfl
  · intro s vals hv
    unfold toFastq
    rw [hv]
    rfl

/-- Witness for C8 at a FASTA-origin record (no accuracy field) and a
short concrete line. -/
theorem toFastq_spec_witness :
    generateAccuracy [("id", Val.vn 0), ("name", Val.vs ['A']),
        ("description", Val.vs []), ("sequence", Val.vs ['A', 'C'])] =
      linewrap (List.replicate (['A', 'C'] : Line).length nullAccuracy) ∧
    (linewrapChunks ['A', 'C']).flatten = ['A', 'C'] :=
  ⟨(toFastq_spec.2.2.2.2.1
      [("id", Val.vn 0), ("name", Val.vs ['A']),
        ("description", Val.vs []), ("sequence", Val.vs ['A', 'C'])]
      ['A', 'C'] (by decide) (by decide)).1,
   (toFastq_spec.1 ['A', 'C']).1⟩

/-- C1 counterexample: building from a FASTQ record whose sequence has
length 5 and accuracy length 4, over a path holding a pre-existing store:
the build raises, yet the new (uncommitted) store file is present at the
target path afterward and the pre-existing artifact was removed before the
failure — the pre-existing store does not survive. -/
theorem build_failure_counterexample :
    (read_fastq_fx true
        ((⟨['r', '1'], [], [['A', 'C', 'G', 'T', 'A']],
          [['I', 'I', 'I', 'I']]⟩ : FqSrc).render)).map
      (fun r => (r.1.raised.isSome, r.1.artifactPresent, r.1.oldRemoved, r.2.isNone)) =
      some (true, true, true, true) := by
  have he : fqiter ((⟨['r', '1'], [], [['A', 'C', 'G', 'T', 'A']],
      [['I', 'I', 'I', 'I']]⟩ : FqSrc).render) =
      .err [] "sequence and accuracy strings must be of equal length" :=
    fqiter_err_render []
      ⟨['r', '1'], [], [['A', 'C', 'G', 'T', 'A']], [['I', 'I', 'I', 'I']]⟩
      (by simp) (by decide) (by decide)
  unfold read_fastq_fx
  rw [he]
  rfl

/-- C1 amended: on any record-iterator failure the build raises and commits
nothing, but the pre-existing artifact (if any) was already removed before
parsing began, and the newly created, uncommitted store file remains
present at the target path; only a build whose iterator completes commits
and yields a store. -/
theorem create_db_failure_spec :
    (∀ (pre : Bool) (fields : List String) (recs : List Rec) (msg : String),
        create_db_fx pre fields (.err recs msg) =
          ({ oldRemoved := pre, artifactPresent := true, committed := false,
             raised := some msg }, none)) ∧
    (∀ (pre : Bool) (fields : List String) (recs : List Rec),
        create_db_fx pre fields (.ok recs) =
          ({ oldRemoved := pre, artifactPresent := true, committed := true,
             raised := none }, some (create_db fields recs))) ∧
    (∀ (pre : Bool) (lines : List Line) (recs : List FqRecord) (msg : String),
        fqiter lines = .err recs msg →
        read_fastq_fx pre lines =
          some ({ oldRemoved := pre, artifactPresent := true, committed := false,
                  raised := some msg }, none)) := by
  refine ⟨fun _ _ _ _ => rfl, fun _ _ _ => rfl, ?_⟩
  intro pre lines recs msg h
  unfold read_fastq_fx
  rw [h]
  rfl

/-- Witness for C1's amended claim at the same concrete failing input,
without a pre-existing artifact. -/
theorem create_db_failure_spec_witness :
    read_fastq_fx false
        ((⟨['r', '1'], [], [['A', 'C', 'G', 'T', 'A']],
          [['I', 'I', 'I', 'I']]⟩ : FqSrc).render) =
      some ({ oldRemoved := false, artifactPresent := true, committed := false,
              raised := some "sequence and accuracy strings must be of equal length" },
            none) :=
  create_db_failure_spec.2.2 false _ []
    "sequence and accuracy strings must be of equal length"
    (fqiter_err_render []
      ⟨['r', '1'], [], [['A', 'C', 'G', 'T', 'A']], [['I', 'I', 'I', 'I']]⟩
      (by simp) (by decide) (by decide))

theorem updFq_nil (r : FqRecord) : updFq [] r = fqRecToRec r := rfl

theorem updFq_canon (r0 r : FqRecord) : updFq (fqRecToRec r0) r = fqRecToRec r := rfl

theorem updFa_nil (r : FaRecord) : updFa [] r = faRecToRec r := rfl

theorem updFa_canon (r0 r : FaRecord) : updFa (faRecToRec r0) r = faRecToRec r := rfl

theorem updHava_nil (r : HavaRecord) : updHava [] r = havaRecToRec r := rfl

theorem updHava_canon (r0 r : HavaRecord) :
    updHava (havaRecToRec r0) r = havaRecToRec r := rfl

theorem fqDictRun_eq :
    ∀ (recs : List FqRecord) (d : Rec), (d = [] ∨ ∃ r0, d = fqRecToRec r0) →
      fqDictRun d recs = recs.map fqRecToRec := by
  intro recs
  induction recs with
  | nil => intro d _; rfl
  | cons r rest ih =>
    intro d hd
    have hu : updFq d r = fqRecToRec r := by
      rcases hd with rfl | ⟨r0, rfl⟩
      · exact updFq_nil r
      · exact updFq_canon r0 r
    simp only [fqDictRun, hu, List.map_cons]
    rw [ih (fqRecToRec r) (Or.inr ⟨r, rfl⟩)]

theorem faDictRun_eq :
    ∀ (recs : List FaRecord) (d : Rec), (d = [] ∨ ∃ r0, d = faRecToRec r0) →
      faDictRun d recs = recs.map faRecToRec := by
  intro recs
  induction recs with
  | nil => intro d _; rfl
  | cons r rest ih =>
    intro d hd
    have hu : updFa d r = faRecToRec r := by
      rcases hd with rfl | ⟨r0, rfl⟩
      · exact updFa_nil r
      · exact updFa_canon r0 r
    simp only [faDictRun, hu, List.map_cons]
    rw [ih (faRecToRec r) (Or.inr ⟨r, rfl⟩)]

theorem havaDictRun_eq :
    ∀ (recs : List HavaRecord) (d : Rec), (d = [] ∨ ∃ r0, d = havaRecToRec r0) →
      havaDictRun d recs = recs.map havaRecToRec := by
  intro recs
  induction recs with
  | nil => intro d _; rfl
  | cons r rest ih =>
    intro d hd
    have hu : updHava d r = havaRecToRec r := by
      rcases hd with rfl | ⟨r0, rfl⟩
      · exact updHava_nil r
      · exact updHava_canon r0 r
    simp only [havaDictRun, hu, List.map_cons]
    rw [ih (havaRecToRec r) (Or.inr ⟨r, rfl⟩)]

theorem getLast?_map_own {α β : Type} (f : α → β) :
    ∀ (l : List α), (l.map f).getLast? = l.getLast?.map f := by
  intro l
  induction l with
  | nil => rfl
  | cons a rest ih =>
    cases rest with
    | nil => rfl
    | cons b r2 =>
      rw [List.map_cons, List.map_cons, List.getLast?_cons_cons,
        List.getLast?_cons_cons, ← List.map_cons]
      exact ih

/-- C10: each parser run reuses one mutable dict for every record — the
dict state at each yield equals the independently built record of that
iteration (every field is overwritten each time, so no stale data
survives), and materializing the whole iterator into a list yields `n`
references to the one dict, each equal to the final (last) record, not `n`
independent records. -/
theorem shared_dict_spec :
    (∀ (recs : List FqRecord) (d : Rec), (d = [] ∨ ∃ r0, d = fqRecToRec r0) →
        fqDictRun d recs = recs.map fqRecToRec) ∧
    (∀ (recs : List FaRecord) (d : Rec), (d = [] ∨ ∃ r0, d = faRecToRec r0) →
        faDictRun d recs = recs.map faRecToRec) ∧
    (∀ (recs : List HavaRecord) (d : Rec), (d = [] ∨ ∃ r0, d = havaRecToRec r0) →
        havaDictRun d recs = recs.map havaRecToRec) ∧
    (∀ (lines : List Line) (recs : List FqRecord) (r : FqRecord),
        fqiter lines = .ok recs → recs.getLast? = some r →
        fqListMaterialized lines = some (List.replicate recs.length (fqRecToRec r))) ∧
    (∀ (lines : List Line) (recs : List FaRecord) (r : FaRecord),
        faiter lines = .ok recs → recs.getLast? = some r →
        faListMaterialized lines = some (List.replicate recs.length (faRecToRec r))) ∧
    (∀ (lines : List Line) (r : HavaRecord),
        (read_hava lines).getLast? = some r →
        havaListMaterialized lines =
          List.replicate (read_hava lines).length (havaRecToRec r)) := by
  refine ⟨fqDictRun_eq, faDictRun_eq, havaDictRun_eq, ?_, ?_, ?_⟩
  · intro lines recs r hiter hl
    unfold fqListMaterialized
    rw [hiter]
    dsimp only
    rw [fqDictRun_eq recs [] (Or.inl rfl), getLast?_map_own, hl]
    rfl
  · intro lines recs r hiter hl
    unfold faListMaterialized
    rw [hiter]
    dsimp only
    rw [faDictRun_eq recs [] (Or.inl rfl), getLast?_map_own, hl]
    rfl
  · intro lines r hl
    unfold havaListMaterialized
    rw [havaDictRun_eq (read_hava lines) [] (Or.inl rfl), getLast?_map_own, hl]
    rfl

/-- Witness for C10: a two-record FASTQ file materializes to two copies of
the second record's dict. -/
theorem shared_dict_spec_witness :
    fqListMaterialized
        (([⟨['r', '1'], [], [['A', 'C']], [['I', 'I']]⟩,
           ⟨['r', '2'], [], [['G', 'G']], [['J', 'J']]⟩] :
          List FqSrc).flatMap FqSrc.render) =
      some (List.replicate 2 (fqRecToRec ⟨['r', '2'], [], ['G', 'G'], ['J', 'J']⟩)) :=
  shared_dict_spec.2.2.2.1
    (([⟨['r', '1'], [], [['A', 'C']], [['I', 'I']]⟩,
       ⟨['r', '2'], [], [['G', 'G']], [['J', 'J']]⟩] :
      List FqSrc).flatMap FqSrc.render)
    [⟨['r', '1'], [], ['A', 'C'], ['I', 'I']⟩, ⟨['r', '2'], [], ['G', 'G'], ['J', 'J']⟩]
    ⟨['r', '2'], [], ['G', 'G'], ['J', 'J']⟩
    (fqiter_ok_render
      [⟨['r', '1'], [], [['A', 'C']], [['I', 'I']]⟩,
       ⟨['r', '2'], [], [['G', 'G']], [['J', 'J']]⟩] (by decide))
    (by decide)
